import Mathlib

/-!
Verification of the gap-buffer data structure (src/lib.rs) against its
natural-language specification.  The Rust code is shallowly embedded: the
`Vec<u8>` storage becomes a `List Nat` of byte values, `usize` arithmetic
that panics on underflow (debug semantics) becomes `checkedSub` returning
`Option`, operations that can panic return `Option GapBuffer`, and the
`Display` implementation becomes `GapBuffer.render`, which works at the
byte level (the UTF-8 decoding step of `Display` is abstracted away; every
scenario proved here only renders buffers whose bytes decode successfully).
-/

/-- Checked subtraction on `Nat`, modelling Rust `usize` subtraction, which
panics on underflow. -/
def checkedSub (a b : Nat) : Option Nat :=
  if b ≤ a then some (a - b) else none

/-- The constant `INITIAL_GAP_SIZE: usize = 10` of src/lib.rs (the constant
`DEFAULT_BUFFER_CAPACITY` has the same value). -/
def INITIAL_GAP_SIZE : Nat := 10

/-- The `GapBuffer` struct of src/lib.rs.  `capacity` mirrors
`Vec::capacity` of the `buffer` vector: it is fixed at construction, and no
operation of this code ever pushes the vector past its initial length, so
no reallocation can occur and the capacity never changes. -/
structure GapBuffer where
  buffer : List Nat
  point : Nat
  gap_start : Nat
  gap_end : Nat
  capacity : Nat
  deriving DecidableEq

/-- `GapBuffer::new`: ten zero bytes, all of them gap. -/
def GapBuffer.new : GapBuffer :=
  { buffer := List.replicate INITIAL_GAP_SIZE 0
    point := 0
    gap_start := 0
    gap_end := INITIAL_GAP_SIZE
    capacity := INITIAL_GAP_SIZE }

/-- `GapBuffer::from(content)`: the storage is the content followed by ten
gap bytes; the point and the gap start sit at the end of the content. -/
def GapBuffer.fromContent (content : List Nat) : GapBuffer :=
  { buffer := content ++ List.replicate INITIAL_GAP_SIZE 0
    point := content.length
    gap_start := content.length
    gap_end := content.length + INITIAL_GAP_SIZE
    capacity := content.length + INITIAL_GAP_SIZE }

/-- `len()`: storage length minus gap length, with both `usize`
subtractions checked. -/
def GapBuffer.len (b : GapBuffer) : Option Nat :=
  match checkedSub b.gap_end b.gap_start with
  | none => none
  | some gap_length => checkedSub b.buffer.length gap_length

/-- `convert_user_index_to_gap_index`: user coordinate to physical
coordinate. -/
def GapBuffer.convert_user_index_to_gap_index (b : GapBuffer) (index : Nat) : Nat :=
  if index < b.gap_start then index else (b.gap_end - b.gap_start) + index

/-- `convert_gap_index_to_user_index`: physical coordinate to user
coordinate. -/
def GapBuffer.convert_gap_index_to_user_index (b : GapBuffer) (index : Nat) : Nat :=
  if index < b.gap_start then index else index - (b.gap_end - b.gap_start)

/-- `set_point(index)`: rejects (panics) when `index > len() - 1`; the
subtraction `len() - 1` itself underflows (panics) when the content length
is zero. -/
def GapBuffer.set_point (b : GapBuffer) (index : Nat) : Option GapBuffer :=
  match b.len with
  | none => none
  | some l =>
    match checkedSub l 1 with
    | none => none
    | some bound =>
      if index > bound then none
      else some { b with point := index }

/-- `is_gap_start_before_point`. -/
def GapBuffer.is_gap_start_before_point (b : GapBuffer) : Bool :=
  b.gap_start < b.convert_user_index_to_gap_index b.point

/-- `is_gap_start_after_point`. -/
def GapBuffer.is_gap_start_after_point (b : GapBuffer) : Bool :=
  b.gap_start > b.convert_user_index_to_gap_index b.point

/-- `Vec::insert(index, byte)` on the storage list. -/
def vecInsert (buf : List Nat) (index : Nat) (byte : Nat) : List Nat :=
  buf.take index ++ byte :: buf.drop index

/-- The first relocation loop of `prepare_gap`: each drained byte is
re-inserted at `gap_start`, and `gap_start` and `gap_end` are bumped once
per byte. -/
def gapForwardLoop : List Nat → List Nat → Nat → Nat → List Nat × Nat × Nat
  | [], buf, gs, ge => (buf, gs, ge)
  | byte :: rest, buf, gs, ge => gapForwardLoop rest (vecInsert buf gs byte) (gs + 1) (ge + 1)

/-- The second relocation loop of `prepare_gap`: drained bytes are
re-inserted at an advancing index starting at the new `gap_end`. -/
def gapBackwardLoop : List Nat → List Nat → Nat → List Nat
  | [], buf, _ => buf
  | byte :: rest, buf, index => gapBackwardLoop rest (vecInsert buf index byte) (index + 1)

/-- `prepare_gap`: slides the gap so that it comes to sit at the point.
The two `Vec::drain` calls become take/drop splices that hand the drained
bytes to the corresponding re-insertion loop. -/
def GapBuffer.prepare_gap (b : GapBuffer) : GapBuffer :=
  if b.is_gap_start_before_point then
    let quantity := b.convert_user_index_to_gap_index b.point - b.gap_end
    let bytes := (b.buffer.drop b.gap_end).take quantity
    let drained := b.buffer.take b.gap_end ++ b.buffer.drop (b.gap_end + quantity)
    let r := gapForwardLoop bytes drained b.gap_start b.gap_end
    { b with buffer := r.1, gap_start := r.2.1, gap_end := r.2.2 }
  else if b.is_gap_start_after_point then
    let target := b.convert_user_index_to_gap_index b.point
    let quantity := b.gap_start - target
    let bytes := (b.buffer.drop target).take (b.gap_start - target)
    let drained := b.buffer.take target ++ b.buffer.drop b.gap_start
    let buf := gapBackwardLoop bytes drained (b.gap_end - quantity)
    { b with buffer := buf, gap_start := b.gap_start - quantity, gap_end := b.gap_end - quantity }
  else b

/-- `insert(byte)`: relocate the gap, consume one gap slot, write the byte
at physical index `point` (`self.buffer[self.point] = byte` panics when the
index is out of bounds). -/
def GapBuffer.insert (b : GapBuffer) (byte : Nat) : Option GapBuffer :=
  let b1 := b.prepare_gap
  if b1.point < b1.buffer.length then
    some { b1 with gap_start := b1.gap_start + 1, buffer := b1.buffer.set b1.point byte }
  else none

/-- The write loop of `insert_bytes`: `self.buffer[index] = byte` for each
byte, panicking (`none`) if the index runs past the end of the storage. -/
def writeBytesLoop : List Nat → List Nat → Nat → Nat → Option (List Nat × Nat)
  | [], buf, _, gs => some (buf, gs)
  | byte :: rest, buf, index, gs =>
    if index < buf.length then writeBytesLoop rest (buf.set index byte) (index + 1) (gs + 1)
    else none

/-- `insert_bytes(bytes)`: relocate the gap once, then write each byte at
an advancing physical index starting at `point`, incrementing `gap_start`
once per byte.  No growth path exists in the code. -/
def GapBuffer.insert_bytes (b : GapBuffer) (bytes : List Nat) : Option GapBuffer :=
  let b1 := b.prepare_gap
  match writeBytesLoop bytes b1.buffer b1.point b1.gap_start with
  | none => none
  | some (buf, gs) => some { b1 with buffer := buf, gap_start := gs }

/-- `remove()`: relocate the gap, shrink it by one on the left
(`gap_start -= 1`, checked), then `set_point(point - 1)` (checked). -/
def GapBuffer.remove (b : GapBuffer) : Option GapBuffer :=
  let b1 := b.prepare_gap
  match checkedSub b1.gap_start 1 with
  | none => none
  | some gs =>
    let b2 := { b1 with gap_start := gs }
    match checkedSub b2.point 1 with
    | none => none
    | some p => b2.set_point p

/-- `remove_bytes(range)`: `self.buffer.drain(range).collect()`.  `drain`
panics when the range is inverted or reaches past the end of the storage;
no field besides the storage is touched. -/
def GapBuffer.remove_bytes (b : GapBuffer) (rangeStart rangeEnd : Nat) :
    Option (List Nat × GapBuffer) :=
  if rangeStart ≤ rangeEnd ∧ rangeEnd ≤ b.buffer.length then
    some ((b.buffer.drop rangeStart).take (rangeEnd - rangeStart),
      { b with buffer := b.buffer.take rangeStart ++ b.buffer.drop rangeEnd })
  else none

/-- The `Display` implementation at the byte level: the storage with the
gap region `[gap_start, gap_end)` cut out. -/
def GapBuffer.render (b : GapBuffer) : List Nat :=
  b.buffer.take b.gap_start ++ b.buffer.drop b.gap_end

/-- The bytes currently sitting inside the gap region. -/
def gapBytes (b : GapBuffer) : List Nat :=
  (b.buffer.drop b.gap_start).take (b.gap_end - b.gap_start)

/-- The user-visible content length, `storage.length - gap length` (§3 of
the spec). -/
def contentLength (b : GapBuffer) : Nat :=
  b.buffer.length - (b.gap_end - b.gap_start)

/-- The §3 invariants: ordered gap bounds inside the storage, and the point
inside the content. -/
def Invariants (b : GapBuffer) : Prop :=
  b.gap_start ≤ b.gap_end ∧ b.gap_end ≤ b.buffer.length ∧ b.point ≤ contentLength b

theorem checkedSub_of_le {a b : Nat} (h : b ≤ a) : checkedSub a b = some (a - b) := by
  simp [checkedSub, h]

theorem checkedSub_of_lt {a b : Nat} (h : a < b) : checkedSub a b = none := by
  simp [checkedSub]; omega

theorem vecInsert_length (buf : List Nat) (i x : Nat) (h : i ≤ buf.length) :
    (vecInsert buf i x).length = buf.length + 1 := by
  simp [vecInsert]
  omega

theorem take_vecInsert (buf : List Nat) (i x : Nat) (h : i ≤ buf.length) :
    (vecInsert buf i x).take (i + 1) = buf.take i ++ [x] := by
  unfold vecInsert
  rw [List.take_append_eq_append_take, List.take_take]
  have h1 : min (i + 1) i = i := by omega
  have h2 : (buf.take i).length = i := by simp; omega
  rw [h1, h2]
  have h3 : i + 1 - i = 1 := by omega
  rw [h3]
  simp

theorem drop_vecInsert (buf : List Nat) (i x : Nat) (h : i ≤ buf.length) :
    (vecInsert buf i x).drop (i + 1) = buf.drop i := by
  unfold vecInsert
  rw [List.drop_append_eq_append_drop]
  have h2 : (buf.take i).length = i := by simp; omega
  rw [h2]
  have h3 : i + 1 - i = 1 := by omega
  rw [h3, List.drop_eq_nil_of_le (by rw [h2]; omega)]
  simp

theorem gapForwardLoop_eq (bytes : List Nat) : ∀ (buf : List Nat) (gs ge : Nat),
    gs ≤ buf.length →
    gapForwardLoop bytes buf gs ge =
      (buf.take gs ++ bytes ++ buf.drop gs, gs + bytes.length, ge + bytes.length) := by
  induction bytes with
  | nil =>
    intro buf gs ge h
    simp [gapForwardLoop]
  | cons byte rest ih =>
    intro buf gs ge h
    rw [gapForwardLoop,
      ih (vecInsert buf gs byte) (gs + 1) (ge + 1)
        (by rw [vecInsert_length buf gs byte h]; omega),
      take_vecInsert buf gs byte h, drop_vecInsert buf gs byte h]
    simp [List.append_assoc]
    omega

theorem gapBackwardLoop_eq (bytes : List Nat) : ∀ (buf : List Nat) (index : Nat),
    index ≤ buf.length →
    gapBackwardLoop bytes buf index = buf.take index ++ bytes ++ buf.drop index := by
  induction bytes with
  | nil =>
    intro buf index h
    simp [gapBackwardLoop]
  | cons byte rest ih =>
    intro buf index h
    rw [gapBackwardLoop,
      ih (vecInsert buf index byte) (index + 1)
        (by rw [vecInsert_length buf index byte h]; omega),
      take_vecInsert buf index byte h, drop_vecInsert buf index byte h]
    simp [List.append_assoc]

/-- Closed form of `prepare_gap` on any state satisfying the §3 invariants:
the result keeps the rendered content and the gap contents, with the gap
relocated so that `gap_start = point` and the gap length unchanged. -/
theorem prepare_gap_eq (b : GapBuffer) (hinv : Invariants b) :
    b.prepare_gap =
      ⟨b.render.take b.point ++ gapBytes b ++ b.render.drop b.point,
       b.point, b.point, b.point + (b.gap_end - b.gap_start), b.capacity⟩ := by
  obtain ⟨buf, p, gs, ge, cap⟩ := b
  simp only [Invariants, contentLength] at hinv
  obtain ⟨hab, hbc, hcd⟩ := hinv
  simp only [GapBuffer.prepare_gap, GapBuffer.is_gap_start_before_point,
    GapBuffer.is_gap_start_after_point, GapBuffer.convert_user_index_to_gap_index,
    GapBuffer.render, gapBytes, decide_eq_true_eq]
  by_cases hp : p < gs
  · -- the point sits before the gap: the second branch relocates backward
    rw [if_pos hp, if_neg (by omega : ¬ gs < p), if_pos (by omega : gs > p)]
    have hlen : (buf.take p ++ buf.drop gs).length = p + (buf.length - gs) := by
      simp
      omega
    rw [gapBackwardLoop_eq _ _ _ (by rw [hlen]; omega)]
    have e1 : ge - (gs - p) = p + (ge - gs) := by omega
    have e1' : gs - (gs - p) = p := by omega
    rw [e1, e1']
    have htp : (buf.take p).length = p := by simp; omega
    have hT1 : (buf.take p ++ buf.drop gs).take (p + (ge - gs))
        = buf.take p ++ (buf.drop gs).take (ge - gs) := by
      rw [List.take_append_eq_append_take, List.take_take, htp]
      have e2 : min (p + (ge - gs)) p = p := by omega
      have e3 : p + (ge - gs) - p = ge - gs := by omega
      rw [e2, e3]
    have hT2 : (buf.take p ++ buf.drop gs).drop (p + (ge - gs)) = buf.drop ge := by
      rw [List.drop_append_eq_append_drop, htp,
        List.drop_eq_nil_of_le (by rw [htp]; omega)]
      have e4 : p + (ge - gs) - p = ge - gs := by omega
      rw [e4, List.nil_append, List.drop_drop]
      have e5 : gs + (ge - gs) = ge := by omega
      rw [e5]
    have hR1 : (buf.take gs ++ buf.drop ge).take p = buf.take p := by
      rw [List.take_append_eq_append_take, List.take_take]
      have e6 : min p gs = p := by omega
      have e7 : (buf.take gs).length = gs := by simp; omega
      have e8 : p - gs = 0 := by omega
      rw [e6, e7, e8]
      simp
    have hR2 : (buf.take gs ++ buf.drop ge).drop p
        = (buf.drop p).take (gs - p) ++ buf.drop ge := by
      rw [List.drop_append_eq_append_drop, List.drop_take]
      have e7 : (buf.take gs).length = gs := by simp; omega
      have e8 : p - gs = 0 := by omega
      rw [e7, e8]
      simp
    rw [hT1, hT2, hR1, hR2]
    simp [List.append_assoc]
  · by_cases hb : gs < (ge - gs) + p
    · -- the point sits at or after the gap: the first branch relocates forward
      rw [if_neg hp, if_pos hb]
      have e6 : (ge - gs) + p - ge = p - gs := by omega
      rw [e6]
      have hlen : (buf.take ge ++ buf.drop (ge + (p - gs))).length
          = ge + (buf.length - (ge + (p - gs))) := by
        simp
        omega
      rw [gapForwardLoop_eq _ _ _ _ (by rw [hlen]; omega)]
      have hbl : ((buf.drop ge).take (p - gs)).length = p - gs := by
        simp
        omega
      rw [hbl]
      have e6a : gs + (p - gs) = p := by omega
      have e6b : ge + (p - gs) = p + (ge - gs) := by omega
      rw [e6a, e6b]
      have e7 : (buf.take ge).length = ge := by simp; omega
      have hT1 : (buf.take ge ++ buf.drop (p + (ge - gs))).take gs = buf.take gs := by
        rw [List.take_append_eq_append_take, List.take_take]
        have e9 : min gs ge = gs := by omega
        have e10 : gs - ge = 0 := by omega
        rw [e9, e7, e10]
        simp
      have hT2 : (buf.take ge ++ buf.drop (p + (ge - gs))).drop gs
          = (buf.drop gs).take (ge - gs) ++ buf.drop (p + (ge - gs)) := by
        rw [List.drop_append_eq_append_drop, List.drop_take, e7]
        have e10 : gs - ge = 0 := by omega
        rw [e10]
        simp
      have hR1 : (buf.take gs ++ buf.drop ge).take p
          = buf.take gs ++ (buf.drop ge).take (p - gs) := by
        rw [List.take_append_eq_append_take, List.take_take]
        have e11 : min p gs = gs := by omega
        have e12 : (buf.take gs).length = gs := by simp; omega
        rw [e11, e12]
      have hR2 : (buf.take gs ++ buf.drop ge).drop p = buf.drop (p + (ge - gs)) := by
        rw [List.drop_append_eq_append_drop]
        have e12 : (buf.take gs).length = gs := by simp; omega
        rw [e12, List.drop_eq_nil_of_le (by rw [e12]; omega), List.nil_append,
          List.drop_drop]
        congr 1
      rw [hT1, hT2, hR1, hR2]
      simp [List.append_assoc]
    · -- the gap already sits at the point and is empty: no movement
      rw [if_neg hp, if_neg hb, if_neg (by omega : ¬ gs > (ge - gs) + p)]
      have e13 : ge = gs := by omega
      have e14 : p = gs := by omega
      subst e13
      subst e14
      simp

theorem render_length (b : GapBuffer) (hinv : Invariants b) :
    b.render.length = contentLength b := by
  obtain ⟨buf, p, gs, ge, cap⟩ := b
  simp only [Invariants, contentLength] at hinv
  obtain ⟨h1, h2, h3⟩ := hinv
  simp only [GapBuffer.render, contentLength, List.length_append, List.length_take,
    List.length_drop]
  omega

theorem gapBytes_length (b : GapBuffer) (hinv : Invariants b) :
    (gapBytes b).length = b.gap_end - b.gap_start := by
  obtain ⟨buf, p, gs, ge, cap⟩ := b
  simp only [Invariants, contentLength] at hinv
  obtain ⟨h1, h2, h3⟩ := hinv
  simp only [gapBytes, List.length_take, List.length_drop]
  omega

theorem prepare_gap_point (b : GapBuffer) (hinv : Invariants b) :
    b.prepare_gap.point = b.point := by
  rw [prepare_gap_eq b hinv]

theorem prepare_gap_gap_start (b : GapBuffer) (hinv : Invariants b) :
    b.prepare_gap.gap_start = b.point := by
  rw [prepare_gap_eq b hinv]

theorem prepare_gap_gap_end (b : GapBuffer) (hinv : Invariants b) :
    b.prepare_gap.gap_end = b.point + (b.gap_end - b.gap_start) := by
  rw [prepare_gap_eq b hinv]

theorem prepare_gap_capacity (b : GapBuffer) (hinv : Invariants b) :
    b.prepare_gap.capacity = b.capacity := by
  rw [prepare_gap_eq b hinv]

theorem prepare_gap_render (b : GapBuffer) (hinv : Invariants b) :
    b.prepare_gap.render = b.render := by
  have hc := hinv.2.2
  have hrl := render_length b hinv
  have hgl := gapBytes_length b hinv
  rw [prepare_gap_eq b hinv]
  set R := b.render with hR
  conv_lhs => simp only [GapBuffer.render]
  have hAl : (R.take b.point).length = b.point := by
    rw [List.length_take, hR, hrl]
    omega
  have hAGl : (R.take b.point ++ gapBytes b).length
      = b.point + (b.gap_end - b.gap_start) := by
    rw [List.length_append, hAl, hgl]
  rw [List.drop_left' hAGl, List.append_assoc, List.take_left' hAl,
    List.take_append_drop]

theorem prepare_gap_gapBytes (b : GapBuffer) (hinv : Invariants b) :
    gapBytes b.prepare_gap = gapBytes b := by
  have hc := hinv.2.2
  have hrl := render_length b hinv
  have hgl := gapBytes_length b hinv
  rw [prepare_gap_eq b hinv]
  set G := gapBytes b with hG
  simp only [gapBytes]
  have hAl : (b.render.take b.point).length = b.point := by
    rw [List.length_take, hrl]
    omega
  rw [List.append_assoc, List.drop_left' hAl]
  have e1 : b.point + (b.gap_end - b.gap_start) - b.point = b.gap_end - b.gap_start := by
    omega
  rw [e1, List.take_left' hgl]

theorem prepare_gap_invariants (b : GapBuffer) (hinv : Invariants b) :
    Invariants b.prepare_gap := by
  obtain ⟨h1, h2, h3⟩ := hinv
  have hrl := render_length b ⟨h1, h2, h3⟩
  have hgl := gapBytes_length b ⟨h1, h2, h3⟩
  rw [prepare_gap_eq b ⟨h1, h2, h3⟩]
  simp only [Invariants, contentLength, List.length_append, List.length_take,
    List.length_drop, hgl] at *
  omega

theorem prepare_gap_idempotent (b : GapBuffer) (hinv : Invariants b) :
    b.prepare_gap.prepare_gap = b.prepare_gap := by
  have hinv2 := prepare_gap_invariants b hinv
  rw [prepare_gap_eq _ hinv2, prepare_gap_point b hinv, prepare_gap_gap_start b hinv,
    prepare_gap_gap_end b hinv, prepare_gap_capacity b hinv, prepare_gap_render b hinv,
    prepare_gap_gapBytes b hinv]
  rw [show b.point + (b.point + (b.gap_end - b.gap_start) - b.point)
      = b.point + (b.gap_end - b.gap_start) by omega]
  exact (prepare_gap_eq b hinv).symm

instance (b : GapBuffer) : Decidable (Invariants b) :=
  inferInstanceAs (Decidable (b.gap_start ≤ b.gap_end ∧ b.gap_end ≤ b.buffer.length ∧
    b.point ≤ contentLength b))

theorem len_eq (b : GapBuffer) (hinv : Invariants b) :
    b.len = some (contentLength b) := by
  obtain ⟨h1, h2, h3⟩ := hinv
  simp only [GapBuffer.len, checkedSub_of_le h1]
  rw [checkedSub_of_le (by omega)]
  rfl

theorem set_point_some (b : GapBuffer) (index n : Nat) (hlen : b.len = some n)
    (h1 : 1 ≤ n) (h2 : index + 1 ≤ n) :
    b.set_point index = some { b with point := index } := by
  simp only [GapBuffer.set_point, hlen, checkedSub_of_le h1]
  rw [if_neg (by omega)]

/-- A small concrete state used by witnesses: the buffer built from "ab"
with the point moved to the start, in front of the gap. -/
def abAtZero : GapBuffer :=
  { GapBuffer.fromContent [97, 98] with point := 0 }

/-- Claim C1: rendering a buffer freshly constructed from any byte string
gives back exactly that string. -/
theorem render_fromContent (content : List Nat) :
    (GapBuffer.fromContent content).render = content := by
  simp only [GapBuffer.render, GapBuffer.fromContent]
  rw [List.take_left' rfl, List.drop_eq_nil_of_le (by simp [INITIAL_GAP_SIZE])]
  simp

/-- Claim C2: on any state satisfying the §3 invariants the two coordinate
translations are mutually inverse: user-to-physical then physical-to-user
is the identity on user indexes up to the content length, and
physical-to-user then user-to-physical is the identity on valid physical
indexes outside the gap. -/
theorem convert_indexes_inverse (b : GapBuffer) (hinv : Invariants b) :
    (∀ u, u ≤ contentLength b →
      b.convert_gap_index_to_user_index (b.convert_user_index_to_gap_index u) = u) ∧
    (∀ ph, ph < b.gap_start ∨ (b.gap_end ≤ ph ∧ ph < b.buffer.length) →
      b.convert_user_index_to_gap_index (b.convert_gap_index_to_user_index ph) = ph) := by
  obtain ⟨h1, h2, h3⟩ := hinv
  simp only [contentLength] at h3
  constructor
  · intro u hu
    simp only [contentLength] at hu
    simp only [GapBuffer.convert_user_index_to_gap_index,
      GapBuffer.convert_gap_index_to_user_index]
    split_ifs <;> omega
  · intro ph hph
    simp only [GapBuffer.convert_user_index_to_gap_index,
      GapBuffer.convert_gap_index_to_user_index]
    split_ifs <;> omega

/-- Witness for `convert_indexes_inverse` at the concrete buffer built from
"ab". -/
theorem convert_indexes_inverse_witness :
    (∀ u, u ≤ contentLength (GapBuffer.fromContent [97, 98]) →
      (GapBuffer.fromContent [97, 98]).convert_gap_index_to_user_index
        ((GapBuffer.fromContent [97, 98]).convert_user_index_to_gap_index u) = u) ∧
    (∀ ph, ph < (GapBuffer.fromContent [97, 98]).gap_start ∨
        ((GapBuffer.fromContent [97, 98]).gap_end ≤ ph ∧
          ph < (GapBuffer.fromContent [97, 98]).buffer.length) →
      (GapBuffer.fromContent [97, 98]).convert_user_index_to_gap_index
        ((GapBuffer.fromContent [97, 98]).convert_gap_index_to_user_index ph) = ph) :=
  convert_indexes_inverse (GapBuffer.fromContent [97, 98]) (by decide)

/-- Claim C3 counterexample: on the freshly created empty buffer the
relocation is a no-op that leaves `gap_start = 0`, while
`to_physical(point)` evaluates to `10`, so the claimed postcondition
`gap_start == to_physical(point)` is false (whether `to_physical` is read
in the pre-state or in the post-state: the state does not change). -/
theorem prepare_gap_postcondition_counterexample :
    GapBuffer.new.prepare_gap.gap_start ≠
      GapBuffer.new.prepare_gap.convert_user_index_to_gap_index
        GapBuffer.new.prepare_gap.point := by
  decide

/-- Claim C3 (amended): after `prepare_gap` the gap sits exactly at the
point, i.e. `gap_start = point` (equivalently
`to_physical(point) = gap_end`), the §3 invariants still hold, the rendered
content is unchanged, and a second call changes no field of the buffer. -/
theorem prepare_gap_correct (b : GapBuffer) (hinv : Invariants b) :
    b.prepare_gap.gap_start = b.prepare_gap.point ∧
    b.prepare_gap.point = b.point ∧
    b.prepare_gap.convert_user_index_to_gap_index b.prepare_gap.point
      = b.prepare_gap.gap_end ∧
    Invariants b.prepare_gap ∧
    b.prepare_gap.render = b.render ∧
    b.prepare_gap.prepare_gap = b.prepare_gap := by
  refine ⟨?_, prepare_gap_point b hinv, ?_, prepare_gap_invariants b hinv,
    prepare_gap_render b hinv, prepare_gap_idempotent b hinv⟩
  · rw [prepare_gap_gap_start b hinv, prepare_gap_point b hinv]
  · simp only [GapBuffer.convert_user_index_to_gap_index, prepare_gap_point b hinv,
      prepare_gap_gap_start b hinv, prepare_gap_gap_end b hinv]
    rw [if_neg (by omega)]
    omega

/-- Witness for `prepare_gap_correct`: a concrete state whose point sits
strictly before a non-empty gap, so the relocation really moves bytes. -/
theorem prepare_gap_correct_witness :
    abAtZero.prepare_gap.gap_start = abAtZero.prepare_gap.point ∧
    abAtZero.prepare_gap.point = abAtZero.point ∧
    abAtZero.prepare_gap.convert_user_index_to_gap_index abAtZero.prepare_gap.point
      = abAtZero.prepare_gap.gap_end ∧
    Invariants abAtZero.prepare_gap ∧
    abAtZero.prepare_gap.render = abAtZero.render ∧
    abAtZero.prepare_gap.prepare_gap = abAtZero.prepare_gap :=
  prepare_gap_correct abAtZero (by decide)

/-- The byte string "The quick brown fox". -/
def theQuickBrownFox : List Nat :=
  [84, 104, 101, 32, 113, 117, 105, 99, 107, 32, 98, 114, 111, 119, 110, 32, 102, 111, 120]

/-- Claim C4 (code bug): the spec requires `set_point(content_length())` to
succeed, but the code's bounds check `index > len() - 1` rejects it: on the
19-byte buffer built from "The quick brown fox", `set_point(19)` panics
while `set_point(18)` succeeds.  The constructor `from` itself initializes
`point = 19`, a value its own `set_point` would reject. -/
theorem set_point_boundary_bug :
    contentLength (GapBuffer.fromContent theQuickBrownFox) = 19 ∧
    (GapBuffer.fromContent theQuickBrownFox).point = 19 ∧
    (GapBuffer.fromContent theQuickBrownFox).set_point 19 = none ∧
    (GapBuffer.fromContent theQuickBrownFox).set_point 18 =
      some { GapBuffer.fromContent theQuickBrownFox with point := 18 } := by
  decide

/-- Claim C9: on any buffer whose content length is zero, `set_point` fails
for every index including zero, because the bounds check computes
`len() - 1` on an unsigned zero length, which underflows. -/
theorem set_point_empty_buffer_fails (b : GapBuffer) (index : Nat)
    (hlen : b.len = some 0) : b.set_point index = none := by
  simp only [GapBuffer.set_point, hlen]
  rfl

/-- Witness for `set_point_empty_buffer_fails`: the freshly created empty
buffer. -/
theorem set_point_empty_buffer_fails_witness :
    GapBuffer.new.len = some 0 ∧ GapBuffer.new.set_point 0 = none :=
  ⟨by decide, set_point_empty_buffer_fails GapBuffer.new 0 (by decide)⟩

/-- The byte string "very ". -/
def veryBytes : List Nat := [118, 101, 114, 121, 32]

/-- The byte string "The very quick brown fox". -/
def theVeryQuickBrownFox : List Nat :=
  [84, 104, 101, 32, 118, 101, 114, 121, 32, 113, 117, 105, 99, 107, 32,
   98, 114, 111, 119, 110, 32, 102, 111, 120]

/-- What the code actually renders at the end of the C5 scenario: "The ",
five leftover NUL gap bytes, then " brown fox".  The gap bounds still point
at `[9, 14)`, which after the drain covers "quick". -/
def corruptedRender : List Nat :=
  [84, 104, 101, 32, 0, 0, 0, 0, 0, 32, 98, 114, 111, 119, 110, 32, 102, 111, 120]

/-- Claim C5 (code bug): in the spec scenario the insertion half works —
after `set_point(4)` and `insert_bytes("very ")` the buffer renders
"The very quick brown fox" — and `remove_bytes(4..9)` does return "very ",
but the final render is not restored to "The quick brown fox": because
`remove_bytes` drains the storage without adjusting the gap bounds (the
code's own TODO admits this), the result keeps five stale NUL bytes and
drops "quick". -/
theorem concrete_scenario_divergence :
    ((((GapBuffer.fromContent theQuickBrownFox).set_point 4).bind
        (fun b => b.insert_bytes veryBytes)).map GapBuffer.render
      = some theVeryQuickBrownFox) ∧
    ((((GapBuffer.fromContent theQuickBrownFox).set_point 4).bind
        (fun b => b.insert_bytes veryBytes)).bind
        (fun b => b.remove_bytes 4 9)).map (fun rb => (rb.1, rb.2.render))
      = some (veryBytes, corruptedRender) ∧
    corruptedRender ≠ theQuickBrownFox := by
  decide

/-- The state the code actually produces in the C6 scenario: the twelve
inserted bytes have overwritten the content bytes "b" and "c", the gap
bounds are inverted, and the capacity is unchanged. -/
def overflowedBuffer : GapBuffer :=
  ⟨[97] ++ List.replicate 12 122, 1, 13, 11, 13⟩

/-- Claim C6 (code bug): `insert_bytes` has no growth path.  Starting from
the buffer built from "abc" with the point at 1, inserting twelve bytes
(two more than the ten-byte gap) overwrites the content bytes "b" (98) and
"c" (99), leaves `capacity()` unchanged, and inverts the gap bounds —
instead of growing the storage as the spec requires. -/
theorem insert_bytes_no_growth_bug :
    ((GapBuffer.fromContent [97, 98, 99]).set_point 1).bind
        (fun b => b.insert_bytes (List.replicate 12 122)) = some overflowedBuffer ∧
    overflowedBuffer.capacity = (GapBuffer.fromContent [97, 98, 99]).capacity ∧
    overflowedBuffer.gap_end < overflowedBuffer.gap_start ∧
    98 ∉ overflowedBuffer.buffer ∧ 99 ∉ overflowedBuffer.buffer := by
  decide

/-- Claim C7 (code bug): `remove` is supposed to fail only at `point == 0`,
but on the buffer built from "ab" — whose point is 2, the content length —
it also fails: after the gap shrinks, the trailing
`set_point(point - 1)` call rejects index 1 against the new content length
1 (the same off-by-one boundary as in `set_point`). -/
theorem remove_at_content_length_bug :
    (GapBuffer.fromContent [97, 98]).point = 2 ∧
    0 < (GapBuffer.fromContent [97, 98]).point ∧
    contentLength (GapBuffer.fromContent [97, 98]) = 2 ∧
    (GapBuffer.fromContent [97, 98]).remove = none := by
  decide

/-- Claim C8 counterexample: at `p = content_length` the insert/remove
inverse fails.  On the buffer built from "a" (point 1 = content length,
a valid point), inserting a byte and then calling `set_point(2)` already
fails — the whole sequence returns no state at all, so it cannot restore
the original content. -/
theorem insert_remove_at_end_counterexample :
    contentLength (GapBuffer.fromContent [97]) = 1 ∧
    (GapBuffer.fromContent [97]).point = 1 ∧
    (((GapBuffer.fromContent [97]).insert 120).bind
      (fun x => x.set_point 2)).bind GapBuffer.remove = none := by
  decide

/-- Claim C10: for any range inside the storage bounds, `remove_bytes`
succeeds, returns exactly the bytes at physical storage positions
`[rangeStart, rangeEnd)` — physical, not user, coordinates, so gap bytes
are included when the range overlaps the gap — closes the hole by shifting
later physical positions down, and leaves `point`, `gap_start`, `gap_end`
and the capacity untouched. -/
theorem remove_bytes_physical (b : GapBuffer) (s e : Nat) (h1 : s ≤ e)
    (h2 : e ≤ b.buffer.length) :
    ∃ removed b', b.remove_bytes s e = some (removed, b') ∧
      removed.length = e - s ∧
      (∀ i, i < e - s → removed[i]? = b.buffer[s + i]?) ∧
      b'.point = b.point ∧ b'.gap_start = b.gap_start ∧ b'.gap_end = b.gap_end ∧
      b'.capacity = b.capacity ∧
      b'.buffer.length = b.buffer.length - (e - s) ∧
      (∀ i, i < s → b'.buffer[i]? = b.buffer[i]?) ∧
      (∀ i, s ≤ i → b'.buffer[i]? = b.buffer[i + (e - s)]?) := by
  refine ⟨(b.buffer.drop s).take (e - s),
    { b with buffer := b.buffer.take s ++ b.buffer.drop e },
    ?_, ?_, ?_, rfl, rfl, rfl, rfl, ?_, ?_, ?_⟩
  · simp only [GapBuffer.remove_bytes, if_pos (And.intro h1 h2)]
  · simp
    omega
  · intro i hi
    rw [List.getElem?_take_of_lt hi, List.getElem?_drop]
  · simp
    omega
  · intro i hi
    have hts : (b.buffer.take s).length = s := by simp; omega
    rw [List.getElem?_append_left (by rw [hts]; omega), List.getElem?_take_of_lt hi]
  · intro i hi
    have hts : (b.buffer.take s).length = s := by simp; omega
    rw [List.getElem?_append_right (by rw [hts]; omega), hts, List.getElem?_drop]
    have e1 : e + (i - s) = i + (e - s) := by omega
    rw [e1]

/-- Witness for `remove_bytes_physical`: the buffer built from "ab" with
the range `[1, 3)`, which overlaps the gap (it removes the content byte
"b" and one gap byte). -/
theorem remove_bytes_physical_witness :
    ∃ removed b', (GapBuffer.fromContent [97, 98]).remove_bytes 1 3
        = some (removed, b') ∧
      removed.length = 2 ∧
      (∀ i, i < 2 →
        removed[i]? = (GapBuffer.fromContent [97, 98]).buffer[1 + i]?) ∧
      b'.point = (GapBuffer.fromContent [97, 98]).point ∧
      b'.gap_start = (GapBuffer.fromContent [97, 98]).gap_start ∧
      b'.gap_end = (GapBuffer.fromContent [97, 98]).gap_end ∧
      b'.capacity = (GapBuffer.fromContent [97, 98]).capacity ∧
      b'.buffer.length = (GapBuffer.fromContent [97, 98]).buffer.length - 2 ∧
      (∀ i, i < 1 → b'.buffer[i]? = (GapBuffer.fromContent [97, 98]).buffer[i]?) ∧
      (∀ i, 1 ≤ i →
        b'.buffer[i]? = (GapBuffer.fromContent [97, 98]).buffer[i + 2]?) :=
  remove_bytes_physical (GapBuffer.fromContent [97, 98]) 1 3 (by decide) (by decide)

theorem prepare_gap_no_op (b : GapBuffer) (hinv : Invariants b)
    (h : b.gap_start = b.point) : b.prepare_gap = b := by
  obtain ⟨h1, h2, h3⟩ := hinv
  have h3' : b.point ≤ b.buffer.length - (b.gap_end - b.gap_start) := h3
  rw [prepare_gap_eq b ⟨h1, h2, h3⟩]
  simp only [GapBuffer.render, gapBytes]
  rw [h] at h1 h3' ⊢
  have hbl : (b.buffer.take b.point).length = b.point := by
    simp
    omega
  have hb : b = ⟨b.buffer, b.point, b.gap_start, b.gap_end, b.capacity⟩ := rfl
  conv_rhs => rw [hb]
  congr 1
  · rw [List.take_append_of_le_length (by simp [hbl]), List.take_take, Nat.min_self,
      List.drop_left' hbl]
    conv_rhs => rw [← List.take_append_drop b.point b.buffer,
      ← List.take_append_drop (b.gap_end - b.point) (b.buffer.drop b.point),
      List.drop_drop]
    rw [show b.point + (b.gap_end - b.point) = b.gap_end by omega]
    simp [List.append_assoc]
  · exact h.symm
  · omega

theorem remove_some (b : GapBuffer) (hinv : Invariants b) (h0 : b.gap_start = b.point)
    (h4 : 1 ≤ b.point) (h5 : b.point < contentLength b) :
    b.remove = some { b with gap_start := b.point - 1, point := b.point - 1 } := by
  obtain ⟨h1, h2, h3⟩ := hinv
  have hLc : contentLength b = b.buffer.length - (b.gap_end - b.gap_start) := rfl
  have hnop := prepare_gap_no_op b ⟨h1, h2, h3⟩ h0
  have hinvB2 : Invariants { b with gap_start := b.point - 1 } := by
    simp only [Invariants, contentLength]
    omega
  have hlenB2 : ({ b with gap_start := b.point - 1 } : GapBuffer).len
      = some (contentLength b - 1) := by
    rw [len_eq _ hinvB2]
    congr 1
    simp only [contentLength]
    omega
  simp only [GapBuffer.remove, hnop, h0, checkedSub_of_le h4]
  rw [set_point_some _ _ (contentLength b - 1) hlenB2 (by omega) (by omega)]

/-- Claim C8 (amended): on any state satisfying the §3 invariants whose gap
is non-empty and whose point lies strictly below the content length,
inserting a byte at the point, moving the point one to the right, and
removing the byte before the point restores the original rendered content
and the original point. -/
theorem insert_remove_inverse (b : GapBuffer) (byte : Nat) (hinv : Invariants b)
    (hgap : b.gap_start < b.gap_end) (hp : b.point < contentLength b) :
    ∃ b', (((b.insert byte).bind (fun x => x.set_point (b.point + 1))).bind
        GapBuffer.remove) = some b' ∧
      b'.render = b.render ∧ b'.point = b.point := by
  obtain ⟨h1, h2, h3⟩ := hinv
  have hinv' : Invariants b := ⟨h1, h2, h3⟩
  have hLc : contentLength b = b.buffer.length - (b.gap_end - b.gap_start) := rfl
  have hpe := prepare_gap_eq b hinv'
  have hrl := render_length b hinv'
  have hgl := gapBytes_length b hinv'
  have hAl : (b.render.take b.point).length = b.point := by
    rw [List.length_take, hrl]
    omega
  have hBl : (b.render.drop b.point).length = contentLength b - b.point := by
    rw [List.length_drop, hrl]
  obtain ⟨g0, G', hGcons⟩ : ∃ hd tl, gapBytes b = hd :: tl := by
    cases hG : gapBytes b with
    | nil =>
      rw [hG] at hgl
      simp at hgl
      omega
    | cons hd tl => exact ⟨hd, tl, rfl⟩
  have hG'l : G'.length = (b.gap_end - b.gap_start) - 1 := by
    rw [hGcons] at hgl
    simp at hgl
    omega
  set Y := (b.render.take b.point ++ byte :: G') ++ b.render.drop b.point with hY
  have hYl : Y.length = contentLength b + (b.gap_end - b.gap_start) := by
    rw [hY]
    simp only [List.length_append, hAl, List.length_cons, hG'l, hBl]
    omega
  have hinsert : b.insert byte = some
      ⟨Y, b.point, b.point + 1, b.point + (b.gap_end - b.gap_start), b.capacity⟩ := by
    simp only [GapBuffer.insert, hpe]
    rw [if_pos (by
      simp only [List.length_append, hAl, hgl, hBl]
      omega)]
    have hset : (b.render.take b.point ++ gapBytes b ++ b.render.drop b.point).set
        b.point byte = Y := by
      rw [List.set_append_left _ _
          (by simp only [List.length_append, hAl, hgl]; omega),
        List.set_append_right _ _ (by omega), hAl, Nat.sub_self, hGcons, hY]
      rfl
    rw [hset]
  have hinvD : Invariants
      (⟨Y, b.point, b.point + 1, b.point + (b.gap_end - b.gap_start), b.capacity⟩
        : GapBuffer) := by
    simp only [Invariants, contentLength, hYl]
    omega
  have hinvE : Invariants
      (⟨Y, b.point + 1, b.point + 1, b.point + (b.gap_end - b.gap_start), b.capacity⟩
        : GapBuffer) := by
    simp only [Invariants, contentLength, hYl]
    omega
  have hlenD : (⟨Y, b.point, b.point + 1, b.point + (b.gap_end - b.gap_start),
      b.capacity⟩ : GapBuffer).len = some (contentLength b + 1) := by
    rw [len_eq _ hinvD]
    congr 1
    simp only [contentLength, hYl]
    omega
  have hsetp : (⟨Y, b.point, b.point + 1, b.point + (b.gap_end - b.gap_start),
      b.capacity⟩ : GapBuffer).set_point (b.point + 1)
      = some ⟨Y, b.point + 1, b.point + 1, b.point + (b.gap_end - b.gap_start),
        b.capacity⟩ := by
    rw [set_point_some _ _ (contentLength b + 1) hlenD (by omega) (by omega)]
  have hremove : (⟨Y, b.point + 1, b.point + 1, b.point + (b.gap_end - b.gap_start),
      b.capacity⟩ : GapBuffer).remove
      = some ⟨Y, b.point, b.point, b.point + (b.gap_end - b.gap_start),
        b.capacity⟩ := by
    have h5E : (⟨Y, b.point + 1, b.point + 1, b.point + (b.gap_end - b.gap_start),
        b.capacity⟩ : GapBuffer).point < contentLength
        (⟨Y, b.point + 1, b.point + 1, b.point + (b.gap_end - b.gap_start),
          b.capacity⟩ : GapBuffer) := by
      simp only [contentLength]
      rw [hYl]
      omega
    rw [remove_some _ hinvE rfl (show 1 ≤ b.point + 1 by omega) h5E]
    simp
  refine ⟨⟨Y, b.point, b.point, b.point + (b.gap_end - b.gap_start), b.capacity⟩,
    ?_, ?_, rfl⟩
  · rw [hinsert]
    simp only [Option.bind]
    rw [hsetp]
    simp only [Option.bind]
    exact hremove
  · simp only [GapBuffer.render]
    rw [hY]
    rw [List.take_append_of_le_length
        (by simp only [List.length_append, hAl, List.length_cons, hG'l]; omega),
      List.take_append_of_le_length (by omega),
      List.take_of_length_le (by omega),
      List.drop_left'
        (by simp only [List.length_append, hAl, List.length_cons, hG'l]; omega)]
    exact List.take_append_drop b.point b.render

/-- Witness for `insert_remove_inverse`: the buffer built from "ab" with
the point at the start. -/
theorem insert_remove_inverse_witness :
    ∃ b', (((abAtZero.insert 120).bind
        (fun x => x.set_point (abAtZero.point + 1))).bind
        GapBuffer.remove) = some b' ∧
      b'.render = abAtZero.render ∧ b'.point = abAtZero.point :=
  insert_remove_inverse abAtZero 120 (by decide) (by decide) (by decide)
